import Mathlib

/-!
Verification of the Histogram module (Histogram.hpp).

The module computes fixed-bin histograms over scalar samples and multi-channel
images, a histogram-intersection similarity score, and a whitespace-delimited
text serialization.

Embedding choices:
- Sample values and histogram counts (stored as `float` in the source) are
  modelled as exact rationals `ℚ`; the claims under study are structural
  (branch selection, lengths, sums), not about float rounding.
- The C-style cast `int bin = floatExpr` truncates toward zero; `ratTrunc`
  models it exactly.
- `throw std::runtime_error(ss.str())` is modelled as `Except.error` carrying
  the fields printed into the diagnostic stream (`BinError`).
- `std::cerr` output of `HistogramIntersection` is modelled as the first
  component of the returned pair (the side channel), the return value as the
  second.
- The external collaborators of the multi-channel function (channel
  extraction, pixel sampling in a region) are modelled as an oracle
  `samples : ℕ → List ℚ` giving, for each channel index, the pixel values of
  that channel inside the region.
- `WriteHistogram` writes to a file; the embedding returns the text written.
-/

namespace Histogram

/-- Histogram::HistogramType — counts stored as a floating type in the source
(so they can be normalized), modelled as rationals. -/
abbrev HistogramType := List ℚ

/-- The data printed into the `std::stringstream` of the two
`throw std::runtime_error` sites of `ScalarHistogram`. -/
structure BinError where
  bin : ℤ
  numValues : ℕ
  rangeMin : ℚ
  rangeMax : ℚ
  index : ℕ
  value : ℚ
  binWidth : ℚ
deriving Repr, DecidableEq

/-- C-style conversion of a real number to `int`: truncation toward zero. -/
def ratTrunc (q : ℚ) : ℤ := if 0 ≤ q then ⌊q⌋ else ⌈q⌉

/-- `bins[i]++` on a count vector. -/
def incAt (l : List ℚ) (i : ℕ) : List ℚ := l.set i (l.getD i 0 + 1)

/-- `const float binWidth = (rangeMax - rangeMin) / static_cast<float>(numberOfBins);` -/
def binWidth (rangeMin rangeMax : ℚ) (numberOfBins : ℕ) : ℚ :=
  (rangeMax - rangeMin) / (numberOfBins : ℚ)

/-- The degenerate-range test `fabs(binWidth - 0.0f) < 1e-6`. -/
abbrev degenerate (rangeMin rangeMax : ℚ) (numberOfBins : ℕ) : Prop :=
  |binWidth rangeMin rangeMax numberOfBins - 0| < 1/1000000

/-- The body of the `for` loop of `ScalarHistogram` for one sample `v`:
either the exact-`rangeMax` special case, or compute
`int bin = (values[i] - rangeMin) / binWidth` and range-check it. -/
def scalarBody (numberOfBins : ℕ) (rangeMin rangeMax binW : ℚ) (numValues i : ℕ)
    (bins : List ℚ) (v : ℚ) : Except BinError (List ℚ) :=
  if v = rangeMax then
    Except.ok (incAt bins (bins.length - 1))
  else
    let bin : ℤ := ratTrunc ((v - rangeMin) / binW)
    if bin < 0 then
      Except.error ⟨bin, numValues, rangeMin, rangeMax, i, v, binW⟩
    else if (numberOfBins : ℤ) ≤ bin then
      Except.error ⟨bin, numValues, rangeMin, rangeMax, i, v, binW⟩
    else
      Except.ok (incAt bins bin.toNat)

/-- The `for(unsigned int i = 0; i < values.size(); ++i)` loop of
`ScalarHistogram`; a thrown error aborts the loop. -/
def scalarLoop (numberOfBins : ℕ) (rangeMin rangeMax binW : ℚ) (numValues : ℕ) :
    ℕ → List ℚ → List ℚ → Except BinError (List ℚ)
  | _, bins, [] => Except.ok bins
  | i, bins, v :: rest =>
    match scalarBody numberOfBins rangeMin rangeMax binW numValues i bins v with
    | Except.error e => Except.error e
    | Except.ok bins2 => scalarLoop numberOfBins rangeMin rangeMax binW numValues (i+1) bins2 rest

/-- Histogram::ScalarHistogram (Histogram.hpp lines 67-123). -/
def ScalarHistogram (values : List ℚ) (numberOfBins : ℕ)
    (rangeMin rangeMax : ℚ) : Except BinError HistogramType :=
  let bins : List ℚ := List.replicate numberOfBins 0
  let bw := binWidth rangeMin rangeMax numberOfBins
  if |bw - 0| < 1/1000000 then
    Except.ok bins
  else
    scalarLoop numberOfBins rangeMin rangeMax bw values.length 0 bins values

/-- The per-channel loop of
`Compute1DConcatenatedHistogramOfMultiChannelImage`: starting at channel
`ch` with `rem` channels remaining, compute each channel histogram and
concatenate; a thrown error from `ScalarHistogram` propagates. -/
def computeChannels (samples : ℕ → List ℚ) (numberOfBinsPerDimensions : ℕ)
    (rangeMin rangeMax : ℚ) : ℕ → ℕ → Except BinError HistogramType
  | _, 0 => Except.ok []
  | ch, rem+1 =>
    match ScalarHistogram (samples ch) numberOfBinsPerDimensions rangeMin rangeMax with
    | Except.error e => Except.error e
    | Except.ok h =>
      match computeChannels samples numberOfBinsPerDimensions rangeMin rangeMax (ch+1) rem with
      | Except.error e => Except.error e
      | Except.ok rest => Except.ok (h ++ rest)

/-- Histogram::Compute1DConcatenatedHistogramOfMultiChannelImage
(Histogram.hpp lines 37-64). The external ITK collaborators (ExtractChannel,
GetPixelValuesInRegion) are abstracted as `samples ch` = the pixel values of
channel `ch` inside the region; `numberOfComponents` =
`image->GetNumberOfComponentsPerPixel()`. -/
def Compute1DConcatenatedHistogramOfMultiChannelImage
    (numberOfComponents : ℕ) (samples : ℕ → List ℚ)
    (numberOfBinsPerDimensions : ℕ) (rangeMin rangeMax : ℚ) :
    Except BinError HistogramType :=
  computeChannels samples numberOfBinsPerDimensions rangeMin rangeMax 0 numberOfComponents

/-- Histogram::HistogramIntersection (Histogram.hpp lines 125-151).
Returns (lines printed to `std::cerr`, returned value). -/
def HistogramIntersection (histogram1 histogram2 : HistogramType) :
    List String × ℚ :=
  if histogram1.length ≠ histogram2.length then
    (["Histograms must be the same size!"], 0)
  else
    let totalIntersection := (List.zipWith min histogram1 histogram2).sum
    let totalFrequency := histogram1.sum
    ([], totalIntersection / totalFrequency)

/-- Histogram::WriteHistogram (Histogram.hpp lines 153-162): the text written
to the file, `fout << histogram[i] << " "` for each bin in order. -/
def WriteHistogram (histogram : HistogramType) : String :=
  histogram.foldl (fun acc x => acc ++ toString x ++ " ") ""

/-- Modelled from the spec: no reader exists in the source; section 8 of the
spec describes re-parsing the whitespace-delimited text. Split a character
sequence at every space. -/
def splitOnSpace : List Char → List (List Char)
  | [] => [[]]
  | c :: rest =>
    if c = ' ' then [] :: splitOnSpace rest
    else
      match splitOnSpace rest with
      | [] => [[c]]
      | t :: ts => (c :: t) :: ts

/-- Modelled from the spec: parse a token of decimal digit characters as a
natural number. -/
def parseDigits (cs : List Char) : ℕ :=
  cs.foldl (fun acc c => 10 * acc + (c.toNat - 48)) 0

/-- Modelled from the spec: re-parse the whitespace-delimited text back into
the integer sequence — split on spaces, drop empty tokens, read each token as
a decimal count. -/
def readHistogram (s : String) : List ℕ :=
  ((splitOnSpace s.data).filter (fun t => t ≠ [])).map parseDigits

/-- A concrete two-channel image (channel 0 holds the single sample 0, channel
1 the single sample 3), used to instantiate the multi-channel theorem. -/
def twoChannelSamples : ℕ → List ℚ :=
  fun ch => if ch = 0 then [0] else [3]

/-! ### Helper lemmas -/

lemma getD_replicate_zero (n i : ℕ) : (List.replicate n (0:ℚ)).getD i 0 = 0 := by
  induction n generalizing i with
  | zero => simp [List.getD]
  | succ m ih => cases i <;> simp_all [List.getD, List.replicate]

lemma incAt_length (l : List ℚ) (i : ℕ) : (incAt l i).length = l.length := by
  simp [incAt]

lemma incAt_sum (l : List ℚ) (i : ℕ) (h : i < l.length) : (incAt l i).sum = l.sum + 1 := by
  induction l generalizing i with
  | nil => simp at h
  | cons a t ih =>
    cases i with
    | zero => simp [incAt, List.getD]; ring
    | succ m =>
      have hm : m < t.length := by simpa using h
      have hstep : incAt (a :: t) (m+1) = a :: incAt t m := by
        simp [incAt, List.getD_cons_succ]
      rw [hstep, List.sum_cons, ih m hm, List.sum_cons]; ring

lemma scalarBody_ok_length (n : ℕ) (rmin rmax bw : ℚ) (numv i : ℕ) (bins b2 : List ℚ)
    (v : ℚ) (h : scalarBody n rmin rmax bw numv i bins v = Except.ok b2) :
    b2.length = bins.length := by
  simp only [scalarBody] at h
  split_ifs at h <;> simp only [Except.ok.injEq] at h <;>
    rw [← h] <;> exact incAt_length ..

lemma scalarLoop_ok_length (n : ℕ) (rmin rmax bw : ℚ) (numv : ℕ) (values : List ℚ) :
    ∀ (i : ℕ) (bins r : List ℚ),
      scalarLoop n rmin rmax bw numv i bins values = Except.ok r →
      r.length = bins.length := by
  induction values with
  | nil =>
    intro i bins r h
    simp only [scalarLoop, Except.ok.injEq] at h
    rw [← h]
  | cons v rest ih =>
    intro i bins r h
    simp only [scalarLoop] at h
    cases hb : scalarBody n rmin rmax bw numv i bins v with
    | error e => rw [hb] at h; simp at h
    | ok bins2 =>
      rw [hb] at h
      rw [ih (i+1) bins2 r h]
      exact scalarBody_ok_length n rmin rmax bw numv i bins bins2 v hb

lemma scalarHistogram_ok_length (values : List ℚ) (n : ℕ) (rmin rmax : ℚ)
    (r : HistogramType) (h : ScalarHistogram values n rmin rmax = Except.ok r) :
    r.length = n := by
  simp only [ScalarHistogram] at h
  split_ifs at h with hdeg
  · simp only [Except.ok.injEq] at h
    rw [← h, List.length_replicate]
  · rw [scalarLoop_ok_length n rmin rmax _ _ values 0 _ r h, List.length_replicate]

lemma binWidth_pos (rmin rmax : ℚ) (n : ℕ) (hn : 1 ≤ n) (hle : rmin ≤ rmax)
    (hd : ¬ degenerate rmin rmax n) : 0 < binWidth rmin rmax n := by
  have hn0 : (0:ℚ) < n := by exact_mod_cast Nat.lt_of_lt_of_le Nat.zero_lt_one hn
  have hbw0 : binWidth rmin rmax n ≠ 0 := by
    intro h0
    exact hd (by rw [degenerate, h0]; norm_num)
  have hnum : rmax - rmin ≠ 0 := by
    intro h0
    exact hbw0 (by rw [binWidth, h0, zero_div])
  have hlt : rmin < rmax := lt_of_le_of_ne hle (fun he => hnum (by rw [he]; ring))
  exact div_pos (by linarith) hn0

lemma mul_binWidth (rmin rmax : ℚ) (n : ℕ) (hn : 1 ≤ n) :
    (n : ℚ) * binWidth rmin rmax n = rmax - rmin := by
  have hn0 : (n:ℚ) ≠ 0 := by
    have : (0:ℚ) < n := by exact_mod_cast Nat.lt_of_lt_of_le Nat.zero_lt_one hn
    exact ne_of_gt this
  rw [binWidth]
  field_simp

lemma scalarBody_inRange (n : ℕ) (hn : 1 ≤ n) (rmin rmax : ℚ)
    (hd : ¬ degenerate rmin rmax n) (v : ℚ) (hv1 : rmin ≤ v) (hv2 : v ≤ rmax)
    (numv i : ℕ) (bins : List ℚ) (hb : bins.length = n) :
    ∃ j, j < bins.length ∧
      scalarBody n rmin rmax (binWidth rmin rmax n) numv i bins v =
        Except.ok (incAt bins j) := by
  by_cases hvmax : v = rmax
  · exact ⟨bins.length - 1, by omega, by simp [scalarBody, hvmax]⟩
  · have hle : rmin ≤ rmax := le_trans hv1 hv2
    have hbw := binWidth_pos rmin rmax n hn hle hd
    have hvlt : v < rmax := lt_of_le_of_ne hv2 hvmax
    have hq0 : 0 ≤ (v - rmin) / binWidth rmin rmax n :=
      div_nonneg (by linarith) hbw.le
    have hqlt : (v - rmin) / binWidth rmin rmax n < n := by
      rw [div_lt_iff₀ hbw]
      have := mul_binWidth rmin rmax n hn
      linarith
    have htr : ratTrunc ((v - rmin) / binWidth rmin rmax n) =
        ⌊(v - rmin) / binWidth rmin rmax n⌋ := if_pos hq0
    have h0 : 0 ≤ ⌊(v - rmin) / binWidth rmin rmax n⌋ := Int.floor_nonneg.2 hq0
    have hlt : ⌊(v - rmin) / binWidth rmin rmax n⌋ < (n:ℤ) :=
      Int.floor_lt.2 (by exact_mod_cast hqlt)
    refine ⟨(⌊(v - rmin) / binWidth rmin rmax n⌋).toNat, by omega, ?_⟩
    simp only [scalarBody, if_neg hvmax, htr]
    rw [if_neg (by omega), if_neg (by omega)]

lemma scalarLoop_inRange (n : ℕ) (hn : 1 ≤ n) (rmin rmax : ℚ)
    (hd : ¬ degenerate rmin rmax n) (numv : ℕ) (values : List ℚ) :
    ∀ (i : ℕ) (bins : List ℚ), bins.length = n →
      (∀ v ∈ values, rmin ≤ v ∧ v ≤ rmax) →
      ∃ r, scalarLoop n rmin rmax (binWidth rmin rmax n) numv i bins values =
            Except.ok r ∧
          r.length = n ∧ r.sum = bins.sum + values.length := by
  induction values with
  | nil =>
    intro i bins hb _
    exact ⟨bins, by simp [scalarLoop], hb, by simp⟩
  | cons v rest ih =>
    intro i bins hb hall
    obtain ⟨hv1, hv2⟩ := hall v (by simp)
    obtain ⟨j, hj, hbody⟩ :=
      scalarBody_inRange n hn rmin rmax hd v hv1 hv2 numv i bins hb
    have hlen2 : (incAt bins j).length = n := by rw [incAt_length]; exact hb
    obtain ⟨r, hr, hrl, hrs⟩ := ih (i+1) (incAt bins j) hlen2
      (fun w hw => hall w (by simp [hw]))
    refine ⟨r, ?_, hrl, ?_⟩
    · simp only [scalarLoop]
      rw [hbody]
      exact hr
    · rw [hrs, incAt_sum bins j hj]
      push_cast [List.length_cons]
      ring

lemma zipWith_min_sum_nonneg (l1 : List ℚ) :
    ∀ l2 : List ℚ, (∀ x ∈ l1, 0 ≤ x) → (∀ x ∈ l2, 0 ≤ x) →
      0 ≤ (List.zipWith min l1 l2).sum := by
  induction l1 with
  | nil => intro l2 _ _; simp
  | cons a t ih =>
    intro l2 h1 h2
    cases l2 with
    | nil => simp
    | cons b u =>
      simp only [List.zipWith_cons_cons, List.sum_cons]
      have hrec := ih u (fun x hx => h1 x (by simp [hx])) (fun x hx => h2 x (by simp [hx]))
      have hmin : 0 ≤ min a b := le_min (h1 a (by simp)) (h2 b (by simp))
      linarith

lemma zipWith_min_sum_le (l1 : List ℚ) :
    ∀ l2 : List ℚ, (∀ x ∈ l1, 0 ≤ x) → (List.zipWith min l1 l2).sum ≤ l1.sum := by
  induction l1 with
  | nil => intro l2 _; simp
  | cons a t ih =>
    intro l2 h1
    cases l2 with
    | nil =>
      have := List.sum_nonneg h1
      simpa using this
    | cons b u =>
      simp only [List.zipWith_cons_cons, List.sum_cons]
      exact add_le_add (min_le_left a b) (ih u (fun x hx => h1 x (by simp [hx])))

lemma foldl_append_string (L : List String) :
    ∀ acc : String, L.foldl (fun a b => a ++ b) acc =
      acc ++ L.foldl (fun a b => a ++ b) "" := by
  induction L with
  | nil => intro acc; simp
  | cons s t ih =>
    intro acc
    simp only [List.foldl_cons]
    rw [ih (acc ++ s), ih ("" ++ s)]
    simp [String.append_assoc]

lemma join_cons_string (s : String) (L : List String) :
    String.join (s :: L) = s ++ String.join L := by
  simp only [String.join, List.foldl_cons]
  rw [foldl_append_string]
  simp

lemma writeHistogram_foldl (l : List ℚ) :
    ∀ acc : String, l.foldl (fun a x => a ++ toString x ++ " ") acc =
      acc ++ String.join (l.map (fun x => toString x ++ " ")) := by
  induction l with
  | nil => intro acc; simp [String.join]
  | cons x t ih =>
    intro acc
    simp only [List.foldl_cons, List.map_cons]
    rw [ih, join_cons_string]
    simp [String.append_assoc]

lemma computeChannels_zero (samples : ℕ → List ℚ) (k : ℕ) (rmin rmax : ℚ) (ch : ℕ) :
    computeChannels samples k rmin rmax ch 0 = Except.ok [] := rfl

lemma computeChannels_succ (samples : ℕ → List ℚ) (k : ℕ) (rmin rmax : ℚ)
    (ch rem : ℕ) :
    computeChannels samples k rmin rmax ch (rem+1) =
      match ScalarHistogram (samples ch) k rmin rmax with
      | Except.error e => Except.error e
      | Except.ok h =>
        match computeChannels samples k rmin rmax (ch+1) rem with
        | Except.error e => Except.error e
        | Except.ok rest => Except.ok (h ++ rest) := rfl

lemma computeChannels_ok (samples : ℕ → List ℚ) (k : ℕ) (rmin rmax : ℚ) :
    ∀ (rem ch : ℕ) (h : HistogramType),
      computeChannels samples k rmin rmax ch rem = Except.ok h →
      h.length = rem * k ∧
        ∀ j < rem, ScalarHistogram (samples (ch + j)) k rmin rmax =
          Except.ok ((h.drop (j * k)).take k) := by
  intro rem
  induction rem with
  | zero =>
    intro ch h hok
    rw [computeChannels_zero] at hok
    simp only [Except.ok.injEq] at hok
    refine ⟨by rw [← hok]; simp, ?_⟩
    intro j hj
    exact absurd hj (Nat.not_lt_zero j)
  | succ rem ih =>
    intro ch h hok
    rw [computeChannels_succ] at hok
    cases h1 : ScalarHistogram (samples ch) k rmin rmax with
    | error e => rw [h1] at hok; simp at hok
    | ok hd1 =>
      rw [h1] at hok
      cases h2 : computeChannels samples k rmin rmax (ch+1) rem with
      | error e => rw [h2] at hok; simp at hok
      | ok rest =>
        rw [h2] at hok
        simp only [Except.ok.injEq] at hok
        have hlen1 : hd1.length = k := scalarHistogram_ok_length _ _ _ _ _ h1
        obtain ⟨hrl, hrest⟩ := ih (ch+1) rest h2
        subst hok
        constructor
        · rw [List.length_append, hlen1, hrl]; ring
        · intro j hj
          cases j with
          | zero =>
            simp only [Nat.zero_mul, List.drop_zero, Nat.add_zero]
            have htake : (hd1 ++ rest).take k = hd1 := by
              rw [← hlen1]
              exact List.take_left hd1 rest
            rw [htake]
            exact h1
          | succ j2 =>
            have hsplit : (j2+1) * k = hd1.length + j2 * k := by rw [hlen1]; ring
            rw [hsplit, List.drop_append]
            have := hrest j2 (by omega)
            rwa [show ch + 1 + j2 = ch + (j2 + 1) by omega] at this


/-- Evaluation helper: a one-sample histogram is determined by one loop-body
step when the range is not degenerate. -/
lemma scalarHistogram_singleton_eval (n : ℕ) (rmin rmax v : ℚ) (b : List ℚ)
    (hd : ¬ (|binWidth rmin rmax n - 0| < 1/1000000))
    (hbody : ∀ numv, scalarBody n rmin rmax (binWidth rmin rmax n) numv 0
      (List.replicate n 0) v = Except.ok b) :
    ScalarHistogram [v] n rmin rmax = Except.ok b := by
  simp only [ScalarHistogram]
  rw [if_neg hd]
  simp only [scalarLoop]
  rw [hbody]

/-- Concrete evaluation: the sample 0 in 2 bins over 0..4 lands in bin 0. -/
lemma scalarHistogram_zero_of_four :
    ScalarHistogram [(0:ℚ)] 2 0 4 = Except.ok [1, 0] := by
  have hbw : binWidth 0 4 2 = 2 := by norm_num [binWidth]
  refine scalarHistogram_singleton_eval 2 0 4 0 [1, 0] (by rw [hbw]; norm_num) ?_
  intro numv
  have htr : ratTrunc (((0:ℚ) - 0) / binWidth 0 4 2) = 0 := by
    rw [hbw]; norm_num [ratTrunc]
  simp only [scalarBody]
  rw [if_neg (by norm_num : ¬ (0:ℚ) = 4), htr]
  rw [if_neg (by omega : ¬ (0:ℤ) < 0), if_neg (by norm_num : ¬ ((2:ℕ):ℤ) ≤ 0)]
  rw [show List.replicate 2 (0:ℚ) = [0, 0] from rfl]
  simp [incAt, List.getD]

/-- Concrete evaluation: the sample 3 in 2 bins over 0..4 lands in bin 1. -/
lemma scalarHistogram_three_of_four :
    ScalarHistogram [(3:ℚ)] 2 0 4 = Except.ok [0, 1] := by
  have hbw : binWidth 0 4 2 = 2 := by norm_num [binWidth]
  refine scalarHistogram_singleton_eval 2 0 4 3 [0, 1] (by rw [hbw]; norm_num) ?_
  intro numv
  have htr : ratTrunc (((3:ℚ) - 0) / binWidth 0 4 2) = 1 := by
    rw [hbw]; norm_num [ratTrunc]
  simp only [scalarBody]
  rw [if_neg (by norm_num : ¬ (3:ℚ) = 4), htr]
  rw [if_neg (by omega : ¬ (1:ℤ) < 0), if_neg (by norm_num : ¬ ((2:ℕ):ℤ) ≤ 1)]
  rw [show List.replicate 2 (0:ℚ) = [0, 0] from rfl]
  simp [incAt, List.getD]

/-! ### Claim theorems -/

/-- C1: for every sequence of samples all satisfying rangeMin ≤ v ≤ rangeMax and
every numberOfBins ≥ 1 with non-degenerate bin width, ScalarHistogram returns a
vector of length exactly numberOfBins whose entries sum to the number of
samples. -/
theorem scalarHistogram_inRange_length_sum (values : List ℚ) (numberOfBins : ℕ)
    (rmin rmax : ℚ) (hn : 1 ≤ numberOfBins) (hd : ¬ degenerate rmin rmax numberOfBins)
    (hall : ∀ v ∈ values, rmin ≤ v ∧ v ≤ rmax) :
    ∃ r, ScalarHistogram values numberOfBins rmin rmax = Except.ok r ∧
      r.length = numberOfBins ∧ r.sum = values.length := by
  obtain ⟨r, hr, hrl, hrs⟩ :=
    scalarLoop_inRange numberOfBins hn rmin rmax hd values.length values 0
      (List.replicate numberOfBins 0) (by simp) hall
  refine ⟨r, ?_, hrl, by rw [hrs]; simp⟩
  simp only [ScalarHistogram]
  rw [if_neg hd]
  exact hr

/-- C1 witness: samples 0, 5, 10 over range 0..10 with 2 bins. -/
theorem scalarHistogram_inRange_length_sum_witness :
    (1 ≤ 2 ∧ ¬ degenerate 0 10 2 ∧ (∀ v ∈ [(0:ℚ), 5, 10], (0:ℚ) ≤ v ∧ v ≤ 10)) ∧
    ∃ r, ScalarHistogram [(0:ℚ), 5, 10] 2 0 10 = Except.ok r ∧
      r.length = 2 ∧ r.sum = ([(0:ℚ), 5, 10]).length :=
  ⟨⟨by norm_num, by norm_num [degenerate, binWidth], by norm_num⟩,
    scalarHistogram_inRange_length_sum [(0:ℚ), 5, 10] 2 0 10 (by norm_num)
      (by norm_num [degenerate, binWidth]) (by norm_num)⟩

/-- C2 counterexample: the sample −1/2 is strictly below rangeMin = 0 and the
bin width 1 is non-degenerate, yet ScalarHistogram raises no error — it
returns a histogram with the sample silently counted in bin 0, refuting the
claim that every sample below rangeMin raises a hard error. -/
theorem scalarHistogram_belowMin_no_error_cex :
    (-(1:ℚ)/2 < 0) ∧ ¬ degenerate 0 10 10 ∧
    ScalarHistogram [-(1:ℚ)/2] 10 0 10 =
      Except.ok ((List.replicate 10 (0:ℚ)).set 0 1) := by
  have hbw : binWidth 0 10 10 = 1 := by norm_num [binWidth]
  refine ⟨by norm_num, by rw [degenerate, hbw]; norm_num, ?_⟩
  refine scalarHistogram_singleton_eval 10 0 10 (-(1:ℚ)/2) _ (by rw [hbw]; norm_num) ?_
  intro numv
  have htr : ratTrunc ((-(1:ℚ)/2 - 0) / binWidth 0 10 10) = 0 := by
    rw [hbw]; norm_num [ratTrunc]
  simp only [scalarBody]
  rw [if_neg (by norm_num : ¬ (-(1:ℚ)/2 = 10)), htr]
  rw [if_neg (by omega : ¬ (0:ℤ) < 0), if_neg (by norm_num : ¬ ((10:ℕ):ℤ) ≤ 0)]
  simp [incAt, getD_replicate_zero]

/-- C2 amended: with numberOfBins ≥ 1 and a non-degenerate positive bin width,
a sample v > rangeMax, or v ≤ rangeMin − binWidth, raises a hard error whose
diagnostic names the offending value; samples strictly between
rangeMin − binWidth and rangeMin are not detected (they truncate to bin 0). -/
theorem scalarHistogram_outOfRange_error (numberOfBins : ℕ) (rmin rmax v : ℚ)
    (hn : 1 ≤ numberOfBins)
    (hbw : 1/1000000 ≤ binWidth rmin rmax numberOfBins)
    (hv : rmax < v ∨ v ≤ rmin - binWidth rmin rmax numberOfBins) :
    ∃ e : BinError, ScalarHistogram [v] numberOfBins rmin rmax = Except.error e ∧
      e.value = v := by
  have hbwpos : 0 < binWidth rmin rmax numberOfBins :=
    lt_of_lt_of_le (by norm_num) hbw
  have hd : ¬ (|binWidth rmin rmax numberOfBins - 0| < 1/1000000) := by
    rw [sub_zero, abs_of_pos hbwpos]
    exact not_lt.2 hbw
  have hmul := mul_binWidth rmin rmax numberOfBins hn
  have hnge : (1:ℚ) ≤ numberOfBins := by exact_mod_cast hn
  have h1bw : 1 * binWidth rmin rmax numberOfBins ≤
      (numberOfBins:ℚ) * binWidth rmin rmax numberOfBins :=
    mul_le_mul_of_nonneg_right hnge hbwpos.le
  have hrmax : rmin + binWidth rmin rmax numberOfBins ≤ rmax := by linarith
  cases hv with
  | inl hgt =>
    have hvne : v ≠ rmax := ne_of_gt hgt
    have hq : (numberOfBins:ℚ) ≤ (v - rmin) / binWidth rmin rmax numberOfBins := by
      rw [le_div_iff₀ hbwpos]
      linarith
    have hq0 : 0 ≤ (v - rmin) / binWidth rmin rmax numberOfBins :=
      le_trans (by positivity) hq
    have htr : ratTrunc ((v - rmin) / binWidth rmin rmax numberOfBins) =
        ⌊(v - rmin) / binWidth rmin rmax numberOfBins⌋ := if_pos hq0
    have h0 : 0 ≤ ⌊(v - rmin) / binWidth rmin rmax numberOfBins⌋ :=
      Int.floor_nonneg.2 hq0
    have hfl : (numberOfBins:ℤ) ≤ ⌊(v - rmin) / binWidth rmin rmax numberOfBins⌋ :=
      Int.le_floor.2 (by exact_mod_cast hq)
    have hbody : ∀ numv i bins, scalarBody numberOfBins rmin rmax
        (binWidth rmin rmax numberOfBins) numv i bins v =
        Except.error ⟨⌊(v - rmin) / binWidth rmin rmax numberOfBins⌋, numv, rmin,
          rmax, i, v, binWidth rmin rmax numberOfBins⟩ := by
      intro numv i bins
      simp only [scalarBody, if_neg hvne, htr]
      rw [if_neg (by omega), if_pos hfl]
    refine ⟨⟨⌊(v - rmin) / binWidth rmin rmax numberOfBins⌋, ([v] : List ℚ).length,
      rmin, rmax, 0, v, binWidth rmin rmax numberOfBins⟩, ?_, rfl⟩
    simp only [ScalarHistogram]
    rw [if_neg hd]
    simp only [scalarLoop]
    rw [hbody]
  | inr hle =>
    have hvne : v ≠ rmax := ne_of_lt (by linarith)
    have hq : (v - rmin) / binWidth rmin rmax numberOfBins ≤ -1 := by
      rw [div_le_iff₀ hbwpos]
      linarith
    have hqneg : ¬ (0 ≤ (v - rmin) / binWidth rmin rmax numberOfBins) := by
      push_neg
      linarith
    have htr : ratTrunc ((v - rmin) / binWidth rmin rmax numberOfBins) =
        ⌈(v - rmin) / binWidth rmin rmax numberOfBins⌉ := if_neg hqneg
    have hceil : ⌈(v - rmin) / binWidth rmin rmax numberOfBins⌉ ≤ -1 :=
      Int.ceil_le.2 (by push_cast; exact hq)
    have hbody : ∀ numv i bins, scalarBody numberOfBins rmin rmax
        (binWidth rmin rmax numberOfBins) numv i bins v =
        Except.error ⟨⌈(v - rmin) / binWidth rmin rmax numberOfBins⌉, numv, rmin,
          rmax, i, v, binWidth rmin rmax numberOfBins⟩ := by
      intro numv i bins
      simp only [scalarBody, if_neg hvne, htr]
      rw [if_pos (by omega)]
    refine ⟨⟨⌈(v - rmin) / binWidth rmin rmax numberOfBins⌉, ([v] : List ℚ).length,
      rmin, rmax, 0, v, binWidth rmin rmax numberOfBins⟩, ?_, rfl⟩
    simp only [ScalarHistogram]
    rw [if_neg hd]
    simp only [scalarLoop]
    rw [hbody]

/-- C2 amended witness: the sample 11 above rangeMax = 10 raises an error whose
diagnostic carries the value 11. -/
theorem scalarHistogram_outOfRange_error_witness :
    (1 ≤ 10 ∧ 1/1000000 ≤ binWidth 0 10 10 ∧
      ((10:ℚ) < 11 ∨ (11:ℚ) ≤ 0 - binWidth 0 10 10)) ∧
    ∃ e : BinError, ScalarHistogram [(11:ℚ)] 10 0 10 = Except.error e ∧
      e.value = 11 :=
  ⟨⟨by norm_num, by norm_num [binWidth], Or.inl (by norm_num)⟩,
    scalarHistogram_outOfRange_error 10 0 10 11 (by norm_num)
      (by norm_num [binWidth]) (Or.inl (by norm_num))⟩

/-- C3: a sample exactly equal to rangeMax is counted in the last bin (index
numberOfBins − 1) and never triggers an out-of-range error, for every
numberOfBins ≥ 1 and non-degenerate range (no arithmetic is done on the value
before the equality test, so this holds even at the type maximum). -/
theorem scalarHistogram_rangeMax_last_bin (numberOfBins : ℕ) (rmin rmax : ℚ)
    (hn : 1 ≤ numberOfBins) (hd : ¬ degenerate rmin rmax numberOfBins) :
    ScalarHistogram [rmax] numberOfBins rmin rmax =
      Except.ok ((List.replicate numberOfBins (0:ℚ)).set (numberOfBins - 1) 1) := by
  have hbody : ∀ numv i, scalarBody numberOfBins rmin rmax
      (binWidth rmin rmax numberOfBins) numv i (List.replicate numberOfBins 0) rmax =
      Except.ok ((List.replicate numberOfBins (0:ℚ)).set (numberOfBins - 1) 1) := by
    intro numv i
    simp [scalarBody, incAt, getD_replicate_zero]
  simp only [ScalarHistogram]
  rw [if_neg hd]
  simp only [scalarLoop]
  rw [hbody]

/-- C3 witness: rangeMax = 8 with 4 bins over 0..8 lands in bin 3. -/
theorem scalarHistogram_rangeMax_last_bin_witness :
    (1 ≤ 4 ∧ ¬ degenerate 0 8 4) ∧
    ScalarHistogram [(8:ℚ)] 4 0 8 =
      Except.ok ((List.replicate 4 (0:ℚ)).set (4 - 1) 1) :=
  ⟨⟨by norm_num, by norm_num [degenerate, binWidth]⟩,
    scalarHistogram_rangeMax_last_bin 4 0 8 (by norm_num)
      (by norm_num [degenerate, binWidth])⟩

/-- C4: if the bin width is within 1e-6 of zero, ScalarHistogram returns an
all-zero histogram of length numberOfBins immediately, never an error,
regardless of the sample values. -/
theorem scalarHistogram_degenerate_zero (values : List ℚ) (numberOfBins : ℕ)
    (rmin rmax : ℚ) (hn : 1 ≤ numberOfBins) (hd : degenerate rmin rmax numberOfBins) :
    ScalarHistogram values numberOfBins rmin rmax =
      Except.ok (List.replicate numberOfBins 0) := by
  simp only [ScalarHistogram]
  rw [if_pos hd]

/-- C4 witness: rangeMin = rangeMax = 7 with 3 bins and arbitrary samples. -/
theorem scalarHistogram_degenerate_zero_witness :
    (1 ≤ 3 ∧ degenerate 7 7 3) ∧
    ScalarHistogram [(42:ℚ), -3] 3 7 7 = Except.ok (List.replicate 3 0) :=
  ⟨⟨by norm_num, by norm_num [degenerate, binWidth]⟩,
    scalarHistogram_degenerate_zero [(42:ℚ), -3] 3 7 7 (by norm_num)
      (by norm_num [degenerate, binWidth])⟩

/-- C5: a successful multi-channel histogram has length
numberOfComponents × binsPerChannel, and the block of k entries starting at
k·j is exactly the scalar histogram of channel j alone — so it depends only on
channel j of the image, in increasing channel order. -/
theorem compute1DConcatenated_blocks (numberOfComponents k : ℕ)
    (samples : ℕ → List ℚ) (rmin rmax : ℚ) (h : HistogramType)
    (hok : Compute1DConcatenatedHistogramOfMultiChannelImage numberOfComponents
      samples k rmin rmax = Except.ok h) :
    h.length = numberOfComponents * k ∧
      ∀ j < numberOfComponents, ScalarHistogram (samples j) k rmin rmax =
        Except.ok ((h.drop (j * k)).take k) := by
  obtain ⟨h1, h2⟩ := computeChannels_ok samples k rmin rmax numberOfComponents 0 h hok
  refine ⟨h1, fun j hj => ?_⟩
  have := h2 j hj
  rwa [Nat.zero_add] at this

/-- C5 witness: a 2-channel image with 2 bins per channel; the block starting
at entry 2 is the scalar histogram of channel 1. -/
theorem compute1DConcatenated_blocks_witness :
    Compute1DConcatenatedHistogramOfMultiChannelImage 2 twoChannelSamples 2 0 4 =
      Except.ok [1, 0, 0, 1] ∧
    ([(1:ℚ), 0, 0, 1]).length = 2 * 2 ∧
    ScalarHistogram (twoChannelSamples 1) 2 0 4 =
      Except.ok ((([(1:ℚ), 0, 0, 1]).drop (1 * 2)).take 2) := by
  have hs0 : twoChannelSamples 0 = [(0:ℚ)] := by simp [twoChannelSamples]
  have hs1 : twoChannelSamples 1 = [(3:ℚ)] := by simp [twoChannelSamples]
  have hok : Compute1DConcatenatedHistogramOfMultiChannelImage 2
      twoChannelSamples 2 0 4 = Except.ok [1, 0, 0, 1] := by
    rw [Compute1DConcatenatedHistogramOfMultiChannelImage,
      show (2:ℕ) = 1 + 1 from rfl, computeChannels_succ, hs0,
      scalarHistogram_zero_of_four, computeChannels_succ, hs1,
      scalarHistogram_three_of_four, computeChannels_zero]
    rfl
  exact ⟨hok, (compute1DConcatenated_blocks 2 2 twoChannelSamples 0 4 _ hok).1,
    (compute1DConcatenated_blocks 2 2 twoChannelSamples 0 4 _ hok).2 1 (by norm_num)⟩

/-- C6: the self-intersection of any histogram with strictly positive total is
exactly 1. -/
theorem histogramIntersection_self (h : HistogramType) (hs : 0 < h.sum) :
    (HistogramIntersection h h).2 = 1 := by
  have hz : List.zipWith min h h = h := by simp [List.zipWith_same]
  simp only [HistogramIntersection]
  rw [if_neg (show ¬ h.length ≠ h.length from fun hne => hne rfl)]
  simp only [hz]
  exact div_self (ne_of_gt hs)

/-- C6 witness: the histogram with bins 2 and 3. -/
theorem histogramIntersection_self_witness :
    (0 < ([(2:ℚ), 3]).sum) ∧ (HistogramIntersection [(2:ℚ), 3] [2, 3]).2 = 1 :=
  ⟨by norm_num [List.sum_cons, List.sum_nil],
    histogramIntersection_self [(2:ℚ), 3]
      (by norm_num [List.sum_cons, List.sum_nil])⟩

/-- C7: for equal-length non-negative histograms with h1 of positive total,
the intersection is (Σ min(h1[i], h2[i])) / (Σ h1[i]), nothing is reported on
the side channel, and the value lies in [0, 1]. -/
theorem histogramIntersection_bounds (h1 h2 : HistogramType)
    (hlen : h1.length = h2.length) (hn1 : ∀ x ∈ h1, 0 ≤ x)
    (hn2 : ∀ x ∈ h2, 0 ≤ x) (hs : 0 < h1.sum) :
    HistogramIntersection h1 h2 = ([], (List.zipWith min h1 h2).sum / h1.sum) ∧
      0 ≤ (HistogramIntersection h1 h2).2 ∧ (HistogramIntersection h1 h2).2 ≤ 1 := by
  have heq : HistogramIntersection h1 h2 =
      ([], (List.zipWith min h1 h2).sum / h1.sum) := by
    simp only [HistogramIntersection]
    rw [if_neg (show ¬ h1.length ≠ h2.length from fun hne => hne hlen)]
  refine ⟨heq, ?_, ?_⟩
  · rw [heq]
    exact div_nonneg (zipWith_min_sum_nonneg h1 h2 hn1 hn2) hs.le
  · rw [heq]
    exact (div_le_one hs).2 (zipWith_min_sum_le h1 h2 hn1)

/-- C7 witness: h1 = [1, 2], h2 = [2, 0]. -/
theorem histogramIntersection_bounds_witness :
    (([(1:ℚ), 2]).length = ([(2:ℚ), 0]).length ∧
      (∀ x ∈ [(1:ℚ), 2], (0:ℚ) ≤ x) ∧ (∀ x ∈ [(2:ℚ), 0], (0:ℚ) ≤ x) ∧
      0 < ([(1:ℚ), 2]).sum) ∧
    HistogramIntersection [(1:ℚ), 2] [2, 0] =
      ([], (List.zipWith min [(1:ℚ), 2] [2, 0]).sum / ([(1:ℚ), 2]).sum) ∧
    0 ≤ (HistogramIntersection [(1:ℚ), 2] [2, 0]).2 ∧
    (HistogramIntersection [(1:ℚ), 2] [2, 0]).2 ≤ 1 :=
  ⟨⟨rfl, by norm_num, by norm_num, by norm_num [List.sum_cons, List.sum_nil]⟩,
    histogramIntersection_bounds [(1:ℚ), 2] [2, 0] rfl (by norm_num)
      (by norm_num) (by norm_num [List.sum_cons, List.sum_nil])⟩

/-- C8: mismatched lengths make HistogramIntersection report the diagnostic on
the side channel (std::cerr) and return 0, with no error raised. -/
theorem histogramIntersection_mismatch (h1 h2 : HistogramType)
    (hne : h1.length ≠ h2.length) :
    HistogramIntersection h1 h2 = (["Histograms must be the same size!"], 0) := by
  simp only [HistogramIntersection]
  rw [if_pos hne]

/-- C8 witness: a 1-bin and a 2-bin histogram. -/
theorem histogramIntersection_mismatch_witness :
    (([(1:ℚ)]).length ≠ ([(1:ℚ), 2]).length) ∧
    HistogramIntersection [(1:ℚ)] [1, 2] =
      (["Histograms must be the same size!"], 0) :=
  ⟨by simp, histogramIntersection_mismatch [(1:ℚ)] [1, 2] (by simp)⟩

/-- C9: WriteHistogram serializes a histogram as its bin values in order, each
followed by a single space, with no header or trailer; on [3, 0, 7, 2] it
produces the text "3 0 7 2 " and re-parsing that whitespace-delimited text
recovers the original integer sequence. -/
theorem writeHistogram_format (h : HistogramType) :
    WriteHistogram h = String.join (h.map (fun x => toString x ++ " ")) ∧
    WriteHistogram [3, 0, 7, 2] = "3 0 7 2 " ∧
    readHistogram (WriteHistogram [3, 0, 7, 2]) = [3, 0, 7, 2] := by
  refine ⟨?_, by rfl, by rfl⟩
  simp only [WriteHistogram]
  rw [writeHistogram_foldl]
  simp

/-- C10: a sample strictly between rangeMin − binWidth and rangeMin (positive
non-degenerate bin width) produces a quotient in (−1, 0) whose truncation
toward zero is bin 0, so ScalarHistogram silently counts the out-of-range
sample in the first bin and raises no error. -/
theorem scalarHistogram_justBelowMin_bin_zero (numberOfBins : ℕ) (rmin rmax v : ℚ)
    (hn : 1 ≤ numberOfBins)
    (hbw : 1/1000000 ≤ binWidth rmin rmax numberOfBins)
    (hv1 : rmin - binWidth rmin rmax numberOfBins < v) (hv2 : v < rmin) :
    (-1 < (v - rmin) / binWidth rmin rmax numberOfBins ∧
      (v - rmin) / binWidth rmin rmax numberOfBins < 0) ∧
    ratTrunc ((v - rmin) / binWidth rmin rmax numberOfBins) = 0 ∧
    ScalarHistogram [v] numberOfBins rmin rmax =
      Except.ok ((List.replicate numberOfBins (0:ℚ)).set 0 1) := by
  have hbwpos : 0 < binWidth rmin rmax numberOfBins :=
    lt_of_lt_of_le (by norm_num) hbw
  have hd : ¬ (|binWidth rmin rmax numberOfBins - 0| < 1/1000000) := by
    rw [sub_zero, abs_of_pos hbwpos]
    exact not_lt.2 hbw
  have hmul := mul_binWidth rmin rmax numberOfBins hn
  have hnge : (1:ℚ) ≤ numberOfBins := by exact_mod_cast hn
  have h1bw : 1 * binWidth rmin rmax numberOfBins ≤
      (numberOfBins:ℚ) * binWidth rmin rmax numberOfBins :=
    mul_le_mul_of_nonneg_right hnge hbwpos.le
  have hqneg : (v - rmin) / binWidth rmin rmax numberOfBins < 0 :=
    div_neg_of_neg_of_pos (by linarith) hbwpos
  have hqgt : -1 < (v - rmin) / binWidth rmin rmax numberOfBins := by
    rw [lt_div_iff₀ hbwpos]
    linarith
  have htr : ratTrunc ((v - rmin) / binWidth rmin rmax numberOfBins) =
      ⌈(v - rmin) / binWidth rmin rmax numberOfBins⌉ :=
    if_neg (not_le.2 hqneg)
  have hceil : ⌈(v - rmin) / binWidth rmin rmax numberOfBins⌉ = 0 := by
    have hle0 : ⌈(v - rmin) / binWidth rmin rmax numberOfBins⌉ ≤ 0 :=
      Int.ceil_le.2 (by push_cast; exact hqneg.le)
    have hgt : (-1:ℤ) < ⌈(v - rmin) / binWidth rmin rmax numberOfBins⌉ :=
      Int.lt_ceil.2 (by push_cast; exact hqgt)
    omega
  have htr0 : ratTrunc ((v - rmin) / binWidth rmin rmax numberOfBins) = 0 := by
    rw [htr, hceil]
  refine ⟨⟨hqgt, hqneg⟩, htr0, ?_⟩
  have hvne : v ≠ rmax := ne_of_lt (by linarith)
  have hbody : ∀ numv i, scalarBody numberOfBins rmin rmax
      (binWidth rmin rmax numberOfBins) numv i (List.replicate numberOfBins 0) v =
      Except.ok ((List.replicate numberOfBins (0:ℚ)).set 0 1) := by
    intro numv i
    simp only [scalarBody, if_neg hvne, htr0]
    rw [if_neg (by omega), if_neg (by omega : ¬ ((numberOfBins:ℤ) ≤ 0))]
    simp [incAt, getD_replicate_zero]
  simp only [ScalarHistogram]
  rw [if_neg hd]
  simp only [scalarLoop]
  rw [hbody]

/-- C10 witness: v = −1/2 just below rangeMin = 0 with bin width 1. -/
theorem scalarHistogram_justBelowMin_bin_zero_witness :
    (1 ≤ 10 ∧ 1/1000000 ≤ binWidth 0 10 10 ∧
      (0:ℚ) - binWidth 0 10 10 < -(1:ℚ)/2 ∧ -(1:ℚ)/2 < 0) ∧
    ((-1 < (-(1:ℚ)/2 - 0) / binWidth 0 10 10 ∧
        (-(1:ℚ)/2 - 0) / binWidth 0 10 10 < 0) ∧
      ratTrunc ((-(1:ℚ)/2 - 0) / binWidth 0 10 10) = 0 ∧
      ScalarHistogram [-(1:ℚ)/2] 10 0 10 =
        Except.ok ((List.replicate 10 (0:ℚ)).set 0 1)) :=
  ⟨⟨by norm_num, by norm_num [binWidth], by norm_num [binWidth], by norm_num⟩,
    scalarHistogram_justBelowMin_bin_zero 10 0 10 (-(1:ℚ)/2) (by norm_num)
      (by norm_num [binWidth]) (by norm_num [binWidth]) (by norm_num)⟩

end Histogram

